import Mathlib

/-
Verification of the bike-share ridership forecasting workflow
(`build_model.ipynb` ship pipeline and `load_model.ipynb` inference helper).

Time is modelled as integer calendar days since 1970-01-01 (a Thursday);
a day `e` is a Sunday exactly when `e % 7 = 3`.  Trip start times are
modelled in minutes since the epoch.  All library-delegated numeric steps
(the SARIMAX one-step-ahead recursion and the model serialization) are
modelled from the specification, as noted in their doc comments.
-/

namespace BikeForecast

/-! ## Calendar: days, Sundays, week-ending-Sunday normalization -/

/-- Day of the Sunday that ends the Monday-to-Sunday (`W-SUN`) week containing
day `e`: the first Sunday on or after `e`.  Day 0 (1970-01-01) is a Thursday,
so Sundays are the days congruent to 3 modulo 7. -/
def sundayEnd (e : Int) : Int := e + (3 - e) % 7

/-- Civil-calendar date to days since 1970-01-01 (Hinnant's algorithm); this
models the timestamp parsing performed by the dataframe library. -/
def daysFromCivil (y m d : Int) : Int :=
  let y2 := if m ≤ 2 then y - 1 else y
  let era := (if 0 ≤ y2 then y2 else y2 - 399) / 400
  let yoe := y2 - era * 400
  let mp := (m + 9) % 12
  let doy := (153 * mp + 2) / 5 + d - 1
  let doe := yoe * 365 + yoe / 4 - yoe / 100 + doy
  era * 146097 + doe - 719468

/-! ## Trip records and the cleaning stage -/

/-- One row of the quarterly rentals files.  `tripduration`,
`fromStationId` and `toStationId` are `Option`-valued: `none` models a
missing (NaN) entry, against which every pandas comparison is false. -/
structure TripRecord where
  tripId : Nat
  starttime : Nat
  stoptime : Nat
  bikeId : Nat
  tripduration : Option Int
  fromStationId : Option Int
  toStationId : Option Int
  deriving DecidableEq, Repr

/-- Embeds `short = rides['Tripduration'] < 120`; a missing duration
compares false. -/
def short (r : TripRecord) : Bool :=
  match r.tripduration with
  | some d => d < 120
  | none => false

/-- Embeds `round_trip = rides['From station id'] == rides['To station id']`;
a missing station id compares false. -/
def round_trip (r : TripRecord) : Bool :=
  match r.fromStationId, r.toStationId with
  | some a, some b => a == b
  | _, _ => false

/-- Embeds `failed = short & round_trip`. -/
def failed (r : TripRecord) : Bool := short r && round_trip r

/-- Embeds `cleaned = rides[~failed]`. -/
def cleaned (rides : List TripRecord) : List TripRecord :=
  rides.filter (fun r => !failed r)

/-! ## Daily aggregation (`resample('D').count()`) -/

/-- Start timestamp truncated to the calendar day, as done by indexing on
`Starttime` and resampling with daily frequency. -/
def startDay (r : TripRecord) : Int := ((r.starttime : Int)) / 1440

/-- Number of records whose start timestamp falls on day `d`. -/
def dailyCount (rs : List TripRecord) (d : Int) : Nat :=
  (rs.filter (fun r => startDay r == d)).length

/-- The start days of a list of records. -/
def startDays (rs : List TripRecord) : List Int := rs.map startDay

/-- Arithmetic progression `[a, a+s, ..., a+s*(n-1)]`; used both for the
daily index (step 1) and the weekly `W-SUN` index (step 7). -/
def arithList (a s : Int) : Nat → List Int
  | 0 => []
  | n + 1 => a :: arithList (a + s) s n

/-- Embeds `daily = cleaned.set_index('Starttime')['Trip id'].resample('D').count()`
applied to an arbitrary record list: the dense day range from the first to the
last observed start day, with the per-day row count (0 for empty days). -/
def dailySeries (rs : List TripRecord) : List (Int × ℚ) :=
  match rs with
  | [] => []
  | r :: rest =>
    let ds := startDays (r :: rest)
    let lo := ds.foldl min (startDay r)
    let hi := ds.foldl max (startDay r)
    (arithList lo 1 ((hi - lo).toNat + 1)).map
      (fun d => (d, (dailyCount (r :: rest) d : ℚ)))

/-- The pipeline's daily ride-count series. -/
def daily (rs : List TripRecord) : List (Int × ℚ) := dailySeries (cleaned rs)

/-! ## Weekly aggregation (`resample('W').mean().asfreq('W-SUN')`) -/

/-- Value of the `W-SUN` bin labelled by the Sunday `w`: the mean of the
daily values whose day falls in the Monday-to-Sunday week ending at `w`,
or `none` (NaN) when the bin holds no observation. -/
def weekMean (s : List (Int × ℚ)) (w : Int) : Option ℚ :=
  let xs := (s.filter (fun p => sundayEnd p.1 == w)).map Prod.snd
  if xs.isEmpty then none else some (xs.sum / (xs.length : ℚ))

/-- Embeds `daily.resample('W').mean()`: one bin per week from the week of
the first observation to the week of the last, mean or NaN per bin. -/
def resampleWeeklyMean (s : List (Int × ℚ)) : List (Int × Option ℚ) :=
  match s with
  | [] => []
  | p :: rest =>
    let a := sundayEnd p.1
    let b := sundayEnd (rest.getLastD p).1
    let n := ((b - a + 7) / 7).toNat
    (arithList a 7 n).map (fun w => (w, weekMean (p :: rest) w))

/-- Value stored in a series at index `t` (`none` when absent or NaN). -/
def lookupVal (s : List (Int × Option ℚ)) (t : Int) : Option ℚ :=
  match s.find? (fun p => p.1 == t) with
  | some p => p.2
  | none => none

/-- Embeds `.asfreq('W-SUN')`: reindex to the Sundays between the first and
last index entry, keeping existing values and inserting NaN elsewhere. -/
def asfreqWSUN (s : List (Int × Option ℚ)) : List (Int × Option ℚ) :=
  match s with
  | [] => []
  | p :: rest =>
    let a := sundayEnd p.1
    let b := (rest.getLastD p).1
    let n := ((b - a + 7) / 7).toNat
    (arithList a 7 n).map (fun w => (w, lookupVal (p :: rest) w))

/-- Embeds `weekly = daily.resample('W').mean().compute().asfreq('W-SUN')`. -/
def weekly (rs : List TripRecord) : List (Int × Option ℚ) :=
  asfreqWSUN (resampleWeeklyMean (daily rs))

/-! ## Inference (`load_model.ipynb`): the forecast function -/

/-- Embeds the `forecast` function: parse the date, offset it to the Sunday
ending its week, and query the loaded model at that single time point
(`start == end == sunday`).  The model's prediction routine is the
abstract argument `predict`. -/
def forecast (predict : Int → Int → ℚ) (y m d : Int) : ℚ :=
  let dt := daysFromCivil y m d
  let sunday := sundayEnd dt
  predict sunday sunday

/-! ## ARIMA(2,1,2) one-step-ahead recursion -/

/-- Parameter vector of the `SARIMAX(order=(2,1,2))` model: two
autoregressive and two moving-average coefficients. -/
structure ArimaParams where
  phi1 : ℚ
  phi2 : ℚ
  th1 : ℚ
  th2 : ℚ
  deriving DecidableEq, Repr

/-- State carried by the one-step-ahead recursion: the last two differenced
observations, the last two innovations, and the previous observation. -/
structure FilterState where
  z1 : ℚ
  z2 : ℚ
  e1 : ℚ
  e2 : ℚ
  yPrev : ℚ
  deriving DecidableEq, Repr

/-- Modelled from the spec: one step of the "Kalman-filter state recursion
implied by . . . fixed parameters" for the ARIMA(2,1,2) model (statsmodels
internals are not part of this repository).  Given the state after the
previous observation, it emits the one-step-ahead prediction of the next
value from actual past data only, then absorbs the actual observation. -/
def stepFilter (p : ArimaParams) (st : FilterState) (y : ℚ) : ℚ × FilterState :=
  let zhat := p.phi1 * st.z1 + p.phi2 * st.z2 + p.th1 * st.e1 + p.th2 * st.e2
  let yhat := st.yPrev + zhat
  let z := y - st.yPrev
  let e := z - zhat
  (yhat, { z1 := z, z2 := st.z1, e1 := e, e2 := st.e1, yPrev := y })

/-- Run the recursion over a series, emitting one prediction per
observation. -/
def runFilter (p : ArimaParams) : FilterState → List ℚ → List ℚ
  | _, [] => []
  | st, y :: ys => (stepFilter p st y).1 :: runFilter p (stepFilter p st y).2 ys

/-- Zero initial state. -/
def initState : FilterState := ⟨0, 0, 0, 0, 0⟩

/-- In-sample one-step-ahead predictions of the model with parameters `p`
over a series, each computed from the actual preceding observations. -/
def oneStepPreds (p : ArimaParams) (ys : List ℚ) : List ℚ :=
  runFilter p initState ys

/-! ## Fitted model objects, persistence, pipeline wiring -/

/-- Modelled from the spec: the fitted model state is "opaque parameter
vector plus the order tuple (p, d, q) and the training series it was fit
against", together with the first index of that series. -/
structure FittedModel where
  order : Nat × Nat × Nat
  params : ArimaParams
  series : List ℚ
  start : Int
  deriving DecidableEq, Repr

/-- Encode one rational as its numerator and denominator. -/
def encQ (q : ℚ) : List Int := [q.num, (q.den : Int)]

/-- Decode one rational from the front of a blob. -/
def decQ : List Int → Option (ℚ × List Int)
  | n :: d :: rest => some (((n : ℚ) / (d : ℚ), rest))
  | _ => none

/-- Decode `k` rationals from the front of a blob. -/
def decQs : Nat → List Int → Option (List ℚ × List Int)
  | 0, b => some ([], b)
  | k + 1, b =>
    match decQ b with
    | some (q, rest) =>
      match decQs k rest with
      | some (qs, r2) => some (q :: qs, r2)
      | none => none
    | none => none

/-- Modelled from the spec: `testing_model.save('bike_forecasts.pkl')`
serializes "the fitted model's parameters, order, and the training series
. . . in a single opaque blob" (the pickle writer itself is library code).
The blob is a flat integer list. -/
def saveModel (m : FittedModel) : List Int :=
  [(m.order.1 : Int), (m.order.2.1 : Int), (m.order.2.2 : Int), m.start,
    (m.series.length : Int)]
    ++ (([m.params.phi1, m.params.phi2, m.params.th1, m.params.th2]
          ++ m.series).map encQ).flatten

/-- Modelled from the spec: `load('bike_forecasts.pkl')` deserializes the
blob "back into an equivalent, fully-functional model object". -/
def loadModel (b : List Int) : Option FittedModel :=
  match b with
  | o1 :: o2 :: o3 :: st :: len :: rest =>
    if 0 ≤ o1 ∧ 0 ≤ o2 ∧ 0 ≤ o3 ∧ 0 ≤ len then
      match decQs (4 + len.toNat) rest with
      | some (a1 :: a2 :: a3 :: a4 :: series, []) =>
        some ⟨(o1.toNat, o2.toNat, o3.toNat), ⟨a1, a2, a3, a4⟩, series, st⟩
      | _ => none
    else none
  | _ => none

/-- In-sample one-step-ahead fitted values of a model over its own series
(the `.predict()` output). -/
def fittedValues (m : FittedModel) : List ℚ := oneStepPreds m.params m.series

/-- Point prediction of a model at the week labelled by day `t`. -/
def predictAt (m : FittedModel) (t : Int) : Option ℚ :=
  (fittedValues m).get? ((t - m.start) / 7).toNat

/-- Embeds `train = weekly.loc['2015':'2016']`: the `.loc` slice of the
date-sorted weekly series is the prefix of length `k`. -/
def train (w : List ℚ) (k : Nat) : List ℚ := w.take k

/-- Embeds `trained_model = SARIMAX(train, order=order).fit(disp=0)` with
the maximum-likelihood estimation abstracted as `mle`: the model fit on
the training prefix only. -/
def trained_model (mle : List ℚ → ArimaParams) (w : List ℚ) (s : Int) (k : Nat) :
    FittedModel :=
  ⟨(2, 1, 2), mle (train w k), train w k, s⟩

/-- Embeds `testing_model = SARIMAX(weekly, order=order).filter(trained_model.params)`:
the full series with the training-fit parameter vector transplanted,
without re-estimation. -/
def testing_model (mle : List ℚ → ArimaParams) (w : List ℚ) (s : Int) (k : Nat) :
    FittedModel :=
  ⟨(2, 1, 2), (trained_model mle w s k).params, w, s⟩

/-- Embeds `model = SARIMAX(weekly, order=order).fit(disp=0)`: the model
whose parameters are re-estimated on the full series. -/
def model (mle : List ℚ → ArimaParams) (w : List ℚ) (s : Int) : FittedModel :=
  ⟨(2, 1, 2), mle w, w, s⟩

/-- Embeds `loaded_model = load('bike_forecasts.pkl')` in the inference
notebook: the deserialization of what `testing_model.save` wrote. -/
def loaded_model (mle : List ℚ → ArimaParams) (w : List ℚ) (s : Int) (k : Nat) :
    Option FittedModel :=
  loadModel (saveModel (testing_model mle w s k))

/-! ## Concrete records for the cleaning scenario -/

/-- Station A to station A, 50 seconds: a failed ride. -/
def recA : TripRecord :=
  ⟨1, 600, 601, 10, some 50, some 1, some 1⟩

/-- Station A to station B, 50 seconds: retained. -/
def recB : TripRecord :=
  ⟨2, 700, 701, 11, some 50, some 1, some 2⟩

/-- Station A to station A, 300 seconds: retained. -/
def recC : TripRecord :=
  ⟨3, 800, 805, 12, some 300, some 1, some 1⟩

/-! ## Helper lemmas -/

lemma sundayEnd_emod (e : Int) : (sundayEnd e) % 7 = 3 := by
  simp only [sundayEnd]
  omega

lemma sundayEnd_of_sunday {e : Int} (h : e % 7 = 3) : sundayEnd e = e := by
  simp only [sundayEnd]
  omega

lemma mem_arithList {s : Int} :
    ∀ {n : Nat} {a t : Int},
      t ∈ arithList a s n ↔ ∃ i : Nat, i < n ∧ t = a + s * i := by
  intro n
  induction n with
  | zero => intro a t; simp [arithList]
  | succ m ih =>
    intro a t
    simp only [arithList, List.mem_cons, ih]
    constructor
    · rintro (rfl | ⟨i, hi, rfl⟩)
      · exact ⟨0, Nat.succ_pos m, by simp⟩
      · refine ⟨i + 1, Nat.succ_lt_succ hi, ?_⟩
        push_cast
        ring
    · rintro ⟨i, hi, rfl⟩
      cases i with
      | zero => left; simp
      | succ j =>
        right
        refine ⟨j, Nat.lt_of_succ_lt_succ hi, ?_⟩
        push_cast
        ring

lemma chain7_arithList : ∀ (n : Nat) (a : Int),
    List.Chain' (fun x y => y = x + 7) (arithList a 7 n) := by
  intro n
  induction n with
  | zero => intro a; simp [arithList]
  | succ m ih =>
    intro a
    rw [arithList, List.chain'_cons']
    refine ⟨?_, ih (a + 7)⟩
    intro y hy
    cases m with
    | zero => simp [arithList] at hy
    | succ k =>
      simp only [arithList, List.head?_cons, Option.mem_def,
        Option.some.injEq] at hy
      omega

lemma pairwise7_arithList : ∀ (n : Nat) (a : Int),
    (arithList a 7 n).Pairwise (· < ·) := by
  intro n
  induction n with
  | zero => intro a; simp [arithList]
  | succ m ih =>
    intro a
    rw [arithList, List.pairwise_cons]
    refine ⟨?_, ih (a + 7)⟩
    intro t ht
    obtain ⟨i, _, rfl⟩ := mem_arithList.mp ht
    omega

lemma nodup_arithList7 (n : Nat) (a : Int) : (arithList a 7 n).Nodup :=
  (pairwise7_arithList n a).imp ne_of_lt

lemma getLastD_arith_map {α : Type} (f : Int → α) (s : Int) :
    ∀ (n : Nat) (a : Int) (x : α),
      ((arithList a s (n + 1)).map f).getLastD x = f (a + s * n) := by
  intro n
  induction n with
  | zero => intro a x; simp [arithList]
  | succ m ih =>
    intro a x
    have h1 : arithList a s (m + 2) = a :: arithList (a + s) s (m + 1) := rfl
    rw [h1, List.map_cons, List.getLastD_cons, ih (a + s) (f a)]
    congr 1
    push_cast
    ring

lemma lookupVal_map_self (g : Int → Option ℚ) :
    ∀ {l : List Int} {t : Int}, t ∈ l →
      lookupVal (l.map (fun w => (w, g w))) t = g t := by
  intro l
  induction l with
  | nil => intro t ht; simp at ht
  | cons x xs ih =>
    intro t ht
    by_cases hx : x = t
    · subst hx
      simp [lookupVal, List.find?]
    · have ht2 : t ∈ xs := by
        rcases List.mem_cons.mp ht with h1 | h1
        · exact absurd h1.symm hx
        · exact h1
      have hbeq : ((x, g x).1 == t) = false := by
        simp [hx]
      simpa [lookupVal, List.find?, hbeq] using ih ht2

lemma foldl_min_le_init : ∀ (l : List Int) (a : Int), l.foldl min a ≤ a := by
  intro l
  induction l with
  | nil => intro a; simp
  | cons x xs ih =>
    intro a
    calc (x :: xs).foldl min a = xs.foldl min (min a x) := rfl
    _ ≤ min a x := ih (min a x)
    _ ≤ a := min_le_left a x

lemma foldl_min_le_mem :
    ∀ (l : List Int) (a x : Int), x ∈ l → l.foldl min a ≤ x := by
  intro l
  induction l with
  | nil => intro a x hx; simp at hx
  | cons y ys ih =>
    intro a x hx
    rcases List.mem_cons.mp hx with rfl | h1
    · calc (x :: ys).foldl min a = ys.foldl min (min a x) := rfl
      _ ≤ min a x := foldl_min_le_init ys (min a x)
      _ ≤ x := min_le_right a x
    · exact ih (min a y) x h1

lemma init_le_foldl_max : ∀ (l : List Int) (a : Int), a ≤ l.foldl max a := by
  intro l
  induction l with
  | nil => intro a; simp
  | cons x xs ih =>
    intro a
    calc a ≤ max a x := le_max_left a x
    _ ≤ xs.foldl max (max a x) := ih (max a x)
    _ = (x :: xs).foldl max a := rfl

lemma mem_le_foldl_max :
    ∀ (l : List Int) (a x : Int), x ∈ l → x ≤ l.foldl max a := by
  intro l
  induction l with
  | nil => intro a x hx; simp at hx
  | cons y ys ih =>
    intro a x hx
    rcases List.mem_cons.mp hx with rfl | h1
    · calc x ≤ max a x := le_max_right a x
      _ ≤ ys.foldl max (max a x) := init_le_foldl_max ys (max a x)
      _ = (x :: ys).foldl max a := rfl
    · exact ih (max a y) x h1

lemma map_fst_map_pair {α : Type} (g : Int → α) (l : List Int) :
    (l.map (fun w => (w, g w))).map Prod.fst = l := by
  induction l with
  | nil => rfl
  | cons x xs ih => simp [ih]

lemma asfreqWSUN_cons (p : Int × Option ℚ) (rest : List (Int × Option ℚ)) :
    asfreqWSUN (p :: rest)
      = (arithList (sundayEnd p.1) 7
          ((((rest.getLastD p).1 - sundayEnd p.1 + 7) / 7).toNat)).map
          (fun w => (w, lookupVal (p :: rest) w)) := rfl

lemma resampleWeeklyMean_cons (p : Int × ℚ) (rest : List (Int × ℚ)) :
    resampleWeeklyMean (p :: rest)
      = (arithList (sundayEnd p.1) 7
          (((sundayEnd (rest.getLastD p).1 - sundayEnd p.1 + 7) / 7).toNat)).map
          (fun w => (w, weekMean (p :: rest) w)) := rfl

lemma asfreq_grid (g : Int → Option ℚ) (a : Int) (n : Nat) (ha : a % 7 = 3) :
    asfreqWSUN ((arithList a 7 (n + 1)).map (fun w => (w, g w)))
      = (arithList a 7 (n + 1)).map (fun w => (w, g w)) := by
  have hcons : (arithList a 7 (n + 1)).map (fun w => (w, g w))
      = ((a, g a) : Int × Option ℚ)
          :: (arithList (a + 7) 7 n).map (fun w => (w, g w)) := rfl
  have hlast :
      (((arithList (a + 7) 7 n).map (fun w => (w, g w))).getLastD (a, g a)).1
        = a + 7 * (n : Int) := by
    cases n with
    | zero => simp [arithList]
    | succ m =>
      rw [getLastD_arith_map]
      push_cast
      ring
  have hsun : sundayEnd (((a, g a) : Int × Option ℚ).1) = a :=
    sundayEnd_of_sunday ha
  have hcount :
      (((((arithList (a + 7) 7 n).map (fun w => (w, g w))).getLastD (a, g a)).1
          - sundayEnd (((a, g a) : Int × Option ℚ).1) + 7) / 7).toNat = n + 1 := by
    rw [hlast, hsun]
    omega
  rw [hcons, asfreqWSUN_cons, hcount, hsun, ← hcons]
  apply List.map_congr_left
  intro w hw
  rw [lookupVal_map_self g hw]

lemma resample_arith (v : Int → ℚ) (lo : Int) (K : Nat) :
    resampleWeeklyMean ((arithList lo 1 (K + 1)).map (fun d => (d, v d)))
      = (arithList (sundayEnd lo) 7
          (((sundayEnd (lo + (K : Int)) - sundayEnd lo + 7) / 7).toNat)).map
          (fun w =>
            (w, weekMean ((arithList lo 1 (K + 1)).map (fun d => (d, v d))) w)) := by
  have hcons : (arithList lo 1 (K + 1)).map (fun d => (d, v d))
      = ((lo, v lo) : Int × ℚ)
          :: (arithList (lo + 1) 1 K).map (fun d => (d, v d)) := rfl
  have hlast :
      (((arithList (lo + 1) 1 K).map (fun d => (d, v d))).getLastD (lo, v lo)).1
        = lo + (K : Int) := by
    cases K with
    | zero => simp [arithList]
    | succ m =>
      rw [getLastD_arith_map]
      push_cast
      ring
  have hfst : (((lo, v lo) : Int × ℚ)).1 = lo := rfl
  rw [hcons, resampleWeeklyMean_cons, hlast, hfst, ← hcons]

lemma weekly_shape (rs : List TripRecord) :
    cleaned rs = []
      ∨ ∃ lo hi : Int, lo ≤ hi
          ∧ (∀ x ∈ cleaned rs, lo ≤ startDay x ∧ startDay x ≤ hi)
          ∧ (daily rs).map Prod.fst = arithList lo 1 ((hi - lo).toNat + 1)
          ∧ weekly rs
              = (arithList (sundayEnd lo) 7
                  (((sundayEnd hi - sundayEnd lo + 7) / 7).toNat)).map
                  (fun w => (w, weekMean (daily rs) w)) := by
  rcases h : cleaned rs with _ | ⟨r, rest⟩
  · left
    rfl
  · right
    refine ⟨(startDays (r :: rest)).foldl min (startDay r),
            (startDays (r :: rest)).foldl max (startDay r), ?_, ?_, ?_, ?_⟩
    · exact le_trans (foldl_min_le_init _ _) (init_le_foldl_max _ _)
    · intro x hx
      have hmem : startDay x ∈ startDays (r :: rest) :=
        List.mem_map.mpr ⟨x, hx, rfl⟩
      exact ⟨foldl_min_le_mem _ _ _ hmem, mem_le_foldl_max _ _ _ hmem⟩
    · simp only [daily, h, dailySeries]
      exact map_fst_map_pair _ _
    · have hlh : (startDays (r :: rest)).foldl min (startDay r)
          ≤ (startDays (r :: rest)).foldl max (startDay r) :=
        le_trans (foldl_min_le_init _ _) (init_le_foldl_max _ _)
      simp only [weekly, daily, h, dailySeries]
      rw [resample_arith]
      have hKhi : (startDays (r :: rest)).foldl min (startDay r)
            + ((((startDays (r :: rest)).foldl max (startDay r)
                - (startDays (r :: rest)).foldl min (startDay r)).toNat : Nat) : Int)
          = (startDays (r :: rest)).foldl max (startDay r) := by omega
      rw [hKhi]
      set N := (((sundayEnd ((startDays (r :: rest)).foldl max (startDay r))
            - sundayEnd ((startDays (r :: rest)).foldl min (startDay r)) + 7) / 7).toNat)
        with hN
      have hpos : 1 ≤ N := by
        rw [hN]
        simp only [sundayEnd]
        omega
      obtain ⟨m, hm⟩ : ∃ m, N = m + 1 := ⟨N - 1, by omega⟩
      rw [hm]
      exact asfreq_grid _ _ _ (sundayEnd_emod _)

lemma runFilter_append (p : ArimaParams) :
    ∀ (xs ys : List ℚ) (st : FilterState),
      (runFilter p st (xs ++ ys)).take xs.length = runFilter p st xs := by
  intro xs
  induction xs with
  | nil => intro ys st; simp [runFilter]
  | cons x xs ih =>
    intro ys st
    simp only [List.cons_append, runFilter, List.length_cons, List.take_succ_cons,
      List.append_eq]
    rw [ih]

lemma decQ_encQ (q : ℚ) (rest : List Int) :
    decQ (encQ q ++ rest) = some (q, rest) := by
  simp only [encQ, List.cons_append, List.nil_append, decQ]
  push_cast
  rw [Rat.num_div_den]

lemma decQs_enc (qs : List ℚ) (rest : List Int) :
    decQs qs.length ((qs.map encQ).flatten ++ rest) = some (qs, rest) := by
  induction qs generalizing rest with
  | nil => simp [decQs]
  | cons q qs ih =>
    simp only [List.map_cons, List.flatten_cons, List.length_cons,
      List.append_assoc, decQs, decQ_encQ, ih]

lemma loadModel_saveModel (m : FittedModel) :
    loadModel (saveModel m) = some m := by
  obtain ⟨⟨op, od, oq⟩, ⟨a1, a2, a3, a4⟩, series, start⟩ := m
  simp only [saveModel, loadModel, List.cons_append, List.nil_append]
  have hnn : (0 : Int) ≤ (op : Int) ∧ (0 : Int) ≤ (od : Int)
      ∧ (0 : Int) ≤ (oq : Int) ∧ (0 : Int) ≤ (series.length : Int) := by
    refine ⟨Int.natCast_nonneg _, Int.natCast_nonneg _,
      Int.natCast_nonneg _, Int.natCast_nonneg _⟩
  rw [if_pos ⟨hnn.1, hnn.2.1, hnn.2.2.1, hnn.2.2.2⟩]
  have hlen : 4 + ((series.length : Int)).toNat
      = (a1 :: a2 :: a3 :: a4 :: series).length := by
    simp only [List.length_cons, Int.toNat_natCast]
    omega
  have henc : (List.map encQ (a1 :: a2 :: a3 :: a4 :: series)).flatten
      = (List.map encQ (a1 :: a2 :: a3 :: a4 :: series)).flatten ++ [] := by simp
  rw [hlen, henc, decQs_enc (a1 :: a2 :: a3 :: a4 :: series) []]
  simp

lemma dailyCount_cons (r : TripRecord) (l : List TripRecord) (d : Int) :
    dailyCount (r :: l) d
      = (if startDay r = d then 1 else 0) + dailyCount l d := by
  simp only [dailyCount, List.filter_cons]
  by_cases hd : startDay r = d
  · have hbeq : (startDay r == d) = true := by simp [hd]
    rw [if_pos hbeq, hd, List.length_cons, if_pos (rfl : d = d)]
    omega
  · have hbeq : (startDay r == d) = false := by simp [hd]
    rw [if_neg (by simp [hbeq]), if_neg hd]
    omega

lemma sum_ico_dailyCount (l : List TripRecord) (a b : Int) :
    (∑ d ∈ Finset.Ico a b, dailyCount l d)
      = (l.filter
          (fun r => decide (a ≤ startDay r) && decide (startDay r < b))).length := by
  induction l with
  | nil =>
    simp [dailyCount]
  | cons r l ih =>
    have hsplit : (∑ d ∈ Finset.Ico a b, dailyCount (r :: l) d)
        = (∑ d ∈ Finset.Ico a b, if startDay r = d then 1 else 0)
          + (∑ d ∈ Finset.Ico a b, dailyCount l d) := by
      rw [← Finset.sum_add_distrib]
      exact Finset.sum_congr rfl (fun d _ => dailyCount_cons r l d)
    rw [hsplit, ih, Finset.sum_ite_eq]
    simp only [Finset.mem_Ico]
    by_cases hin : a ≤ startDay r ∧ startDay r < b
    · rw [if_pos hin]
      have htrue : (decide (a ≤ startDay r) && decide (startDay r < b)) = true := by
        simp [hin.1, hin.2]
      have hfil : List.filter
            (fun r => decide (a ≤ startDay r) && decide (startDay r < b)) (r :: l)
          = r :: List.filter
              (fun r => decide (a ≤ startDay r) && decide (startDay r < b)) l := by
        rw [List.filter_cons, if_pos htrue]
      rw [hfil, List.length_cons]
      omega
    · rw [if_neg hin]
      have hfalse : (decide (a ≤ startDay r) && decide (startDay r < b)) = false := by
        rcases not_and_or.mp hin with h1 | h1 <;> simp [h1]
      have hfil : List.filter
            (fun r => decide (a ≤ startDay r) && decide (startDay r < b)) (r :: l)
          = List.filter
              (fun r => decide (a ≤ startDay r) && decide (startDay r < b)) l := by
        rw [List.filter_cons, if_neg (by simp [hfalse])]
      rw [hfil]
      omega

lemma lookupVal_self :
    ∀ (s : List (Int × Option ℚ)), (s.map Prod.fst).Nodup →
      ∀ p ∈ s, lookupVal s p.1 = p.2 := by
  intro s
  induction s with
  | nil => intro _ p hp; simp at hp
  | cons q rest ih =>
    intro hnd p hp
    rw [List.map_cons, List.nodup_cons] at hnd
    rcases List.mem_cons.mp hp with rfl | hmem
    · simp [lookupVal, List.find?]
    · by_cases hq : q.1 = p.1
      · exact absurd (hq ▸ List.mem_map.mpr ⟨p, hmem, rfl⟩) hnd.1
      · have hbeq : (q.1 == p.1) = false := by simp [hq]
        simp only [lookupVal, List.find?, hbeq]
        exact ih hnd.2 p hmem

lemma self_eq_map_lookup (s : List (Int × Option ℚ))
    (hnd : (s.map Prod.fst).Nodup) :
    s = (s.map Prod.fst).map (fun w => (w, lookupVal s w)) := by
  have h2 : ∀ p ∈ s, (((fun w => (w, lookupVal s w)) ∘ Prod.fst) p
      : Int × Option ℚ) = id p := by
    intro p hp
    simp [Function.comp, lookupVal_self s hnd p hp]
  rw [List.map_map, List.map_congr_left h2, List.map_id]

/-! ## Claim theorems and witnesses -/

/-- C1: the cleaning stage excludes a trip record if and only if its origin
station id equals its destination station id and its duration is strictly
below 120 seconds; every other record is retained, in order and unchanged.
On the three-record day `[recA, recB, recC]`, cleaning keeps exactly the
2nd and 3rd records and the daily count for that day is 2. -/
theorem cleaning_excludes_failed_rides (rs : List TripRecord) (r : TripRecord)
    (f t du : Int) (hf : r.fromStationId = some f) (ht : r.toStationId = some t)
    (hd : r.tripduration = some du) :
    (r ∈ cleaned rs ↔ r ∈ rs ∧ ¬(f = t ∧ du < 120))
    ∧ List.Sublist (cleaned rs) rs
    ∧ cleaned [recA, recB, recC] = [recB, recC]
    ∧ dailyCount (cleaned [recA, recB, recC]) 0 = 2 := by
  refine ⟨?_, List.filter_sublist rs, by decide, by decide⟩
  rw [cleaned, List.mem_filter]
  have hfail : failed r = (decide (du < 120) && (f == t)) := by
    rw [failed, short, round_trip, hf, ht, hd]
  rw [hfail]
  constructor
  · rintro ⟨hmem, hb⟩
    refine ⟨hmem, ?_⟩
    rintro ⟨rfl, hlt⟩
    simp [hlt] at hb
  · rintro ⟨hmem, hnot⟩
    refine ⟨hmem, ?_⟩
    by_cases hft : f = t
    · have hlt : ¬du < 120 := fun hlt => hnot ⟨hft, hlt⟩
      simp [hlt]
    · simp [hft]

/-- C1 witness: the exclusion criterion instantiated at `recA` in the
concrete scenario. -/
theorem cleaning_excludes_failed_rides_witness :
    recA ∈ cleaned [recA, recB, recC]
      ↔ recA ∈ [recA, recB, recC] ∧ ¬((1 : Int) = 1 ∧ (50 : Int) < 120) :=
  (cleaning_excludes_failed_rides [recA, recB, recC] recA 1 1 50 rfl rfl rfl).1

/-- C9: a record with a missing duration or a missing origin or destination
station id is never classified as a failed ride (every comparison against a
missing value is false), so the cleaning stage retains it. -/
theorem missing_fields_are_retained (rs : List TripRecord) (r : TripRecord)
    (h : r.tripduration = none ∨ r.fromStationId = none ∨ r.toStationId = none) :
    failed r = false ∧ (r ∈ cleaned rs ↔ r ∈ rs) := by
  have hf : failed r = false := by
    rcases h with h1 | h1 | h1
    · rw [failed, short, h1]
      rfl
    · rw [failed, round_trip, h1]
      cases r.toStationId <;> simp
    · rw [failed, round_trip, h1]
      cases r.fromStationId <;> simp
  refine ⟨hf, ?_⟩
  rw [cleaned, List.mem_filter, hf]
  simp

/-- C9 witness: a record with a missing duration is retained. -/
theorem missing_fields_are_retained_witness :
    failed ⟨9, 0, 0, 0, none, some 1, some 1⟩ = false
      ∧ (⟨9, 0, 0, 0, none, some 1, some 1⟩
          ∈ cleaned [(⟨9, 0, 0, 0, none, some 1, some 1⟩ : TripRecord)]
        ↔ (⟨9, 0, 0, 0, none, some 1, some 1⟩ : TripRecord)
          ∈ [(⟨9, 0, 0, 0, none, some 1, some 1⟩ : TripRecord)]) :=
  missing_fields_are_retained _ _ (Or.inl rfl)

/-- C7: every entry of the daily series holds the number of retained
records whose start timestamp falls on that day, and the sum of the daily
counts over any date range `[a, b)` equals the number of retained records
whose start day lies in that range. -/
theorem daily_counts_retained_records (rs : List TripRecord) (a b : Int) :
    (∀ p ∈ daily rs,
      p.2 = ((((cleaned rs).filter (fun r => startDay r == p.1)).length : ℚ)))
    ∧ (∑ d ∈ Finset.Ico a b, dailyCount (cleaned rs) d)
        = ((cleaned rs).filter
            (fun r => decide (a ≤ startDay r) && decide (startDay r < b))).length := by
  refine ⟨?_, sum_ico_dailyCount _ _ _⟩
  intro p hp
  rw [daily] at hp
  rcases hcl : cleaned rs with _ | ⟨r, rest⟩
  · rw [hcl] at hp
    simp [dailySeries] at hp
  · rw [hcl] at hp
    rw [dailySeries] at hp
    obtain ⟨d, _, rfl⟩ := List.mem_map.mp hp
    rfl

/-- C7 witness: the range-sum identity on the concrete scenario, over the
range containing its single day. -/
theorem daily_counts_retained_records_witness :
    (∑ d ∈ Finset.Ico (0 : Int) 1, dailyCount (cleaned [recA, recB, recC]) d)
      = ((cleaned [recA, recB, recC]).filter
          (fun r => decide ((0 : Int) ≤ startDay r)
            && decide (startDay r < (1 : Int)))).length :=
  (daily_counts_retained_records [recA, recB, recC] 0 1).2

/-- C6: the weekly series has a duplicate-free index advancing in strict
7-day steps, every index entry is a Sunday, every entry's value is the mean
of the daily counts of the Monday-to-Sunday week ending there (`weekMean`),
the week of every daily observation is present (no week is silently
dropped), and a week holding no daily observation carries the missing
value `none`, never zero. -/
theorem weekly_series_spec (rs : List TripRecord) :
    ((weekly rs).map Prod.fst).Nodup
    ∧ List.Chain' (fun x y => y = x + 7) ((weekly rs).map Prod.fst)
    ∧ (∀ p ∈ weekly rs, p.1 % 7 = 3)
    ∧ (∀ p ∈ weekly rs, p.2 = weekMean (daily rs) p.1)
    ∧ (∀ d ∈ (daily rs).map Prod.fst,
        sundayEnd d ∈ (weekly rs).map Prod.fst)
    ∧ (∀ p ∈ weekly rs,
        (daily rs).filter (fun q => sundayEnd q.1 == p.1) = [] → p.2 = none) := by
  rcases weekly_shape rs with h | ⟨lo, hi, hlh, _, hidx, hshape⟩
  · have hw : weekly rs = [] := by
      simp only [weekly, daily, h]
      rfl
    have hdm : daily rs = [] := by
      simp only [daily, h]
      rfl
    rw [hw, hdm]
    exact ⟨by simp, by simp, by simp, by simp, by simp, by simp⟩
  · rw [hshape, map_fst_map_pair]
    refine ⟨nodup_arithList7 _ _, chain7_arithList _ _, ?_, ?_, ?_, ?_⟩
    · intro p hp
      obtain ⟨w, hw, rfl⟩ := List.mem_map.mp hp
      obtain ⟨i, _, rfl⟩ := mem_arithList.mp hw
      have h3 : sundayEnd lo % 7 = 3 := sundayEnd_emod lo
      show (sundayEnd lo + 7 * (i : Int)) % 7 = 3
      omega
    · intro p hp
      obtain ⟨w, hw, rfl⟩ := List.mem_map.mp hp
      rfl
    · intro d hd
      rw [hidx] at hd
      obtain ⟨i, hi2, hdi⟩ := mem_arithList.mp hd
      refine mem_arithList.mpr ⟨((sundayEnd d - sundayEnd lo) / 7).toNat, ?_, ?_⟩
      · simp only [sundayEnd]
        omega
      · simp only [sundayEnd]
        omega
    · intro p hp hfil
      obtain ⟨w, hw, rfl⟩ := List.mem_map.mp hp
      simp only [weekMean, hfil, List.map_nil, List.isEmpty_nil, if_true]

/-- C6 witness: on the one-record dataset `[recB]`, the week of its single
daily observation (day 0, week-ending Sunday 3) is present in the weekly
index. -/
theorem weekly_series_spec_witness :
    sundayEnd 0 ∈ (weekly [recB]).map Prod.fst :=
  (weekly_series_spec [recB]).2.2.2.2.1 0 (by decide)

/-- C8: reindexing to the Sunday-anchored strict weekly frequency is
idempotent: on a series whose index already is the Sunday-anchored weekly
grid, `asfreq('W-SUN')` returns the series unchanged. -/
theorem asfreq_reindex_idempotent (s : List (Int × Option ℚ)) (a : Int)
    (ha : a % 7 = 3) (hidx : s.map Prod.fst = arithList a 7 s.length) :
    asfreqWSUN s = s := by
  have hnd : (s.map Prod.fst).Nodup := by
    rw [hidx]
    exact nodup_arithList7 _ _
  have hrepr : s = (arithList a 7 s.length).map (fun w => (w, lookupVal s w)) := by
    conv_lhs => rw [self_eq_map_lookup s hnd]
    rw [hidx]
  cases hn : s.length with
  | zero =>
    have hnil : s = [] := List.length_eq_zero.mp hn
    rw [hnil]
    rfl
  | succ m =>
    rw [hn] at hrepr
    conv_lhs => rw [hrepr]
    rw [asfreq_grid (fun w => lookupVal s w) a m ha]
    exact hrepr.symm

/-- C8 witness: `asfreq` is the identity on a concrete two-week
Sunday-anchored series (one value present, one missing). -/
theorem asfreq_reindex_idempotent_witness :
    asfreqWSUN [((3 : Int), some (1 : ℚ)), (10, none)]
      = [((3 : Int), some (1 : ℚ)), (10, none)] :=
  asfreq_reindex_idempotent [(3, some 1), (10, none)] 3 (by decide) (by decide)

/-- C2: `forecast` queries the model at the single point given by the
week-ending Sunday of the input date, so any two dates with the same
week-ending Sunday give identical predictions; in particular the inputs
Jan 3, 2017 and Jan 4, 2017 do. -/
theorem forecast_normalizes_to_sunday (predict : Int → Int → ℚ)
    (y1 m1 d1 y2 m2 d2 : Int)
    (h : sundayEnd (daysFromCivil y1 m1 d1) = sundayEnd (daysFromCivil y2 m2 d2)) :
    forecast predict y1 m1 d1
        = predict (sundayEnd (daysFromCivil y1 m1 d1))
            (sundayEnd (daysFromCivil y1 m1 d1))
    ∧ forecast predict y1 m1 d1 = forecast predict y2 m2 d2
    ∧ forecast predict 2017 1 3 = forecast predict 2017 1 4 := by
  refine ⟨rfl, ?_, ?_⟩
  · simp only [forecast]
    rw [h]
  · have h2 : sundayEnd (daysFromCivil 2017 1 3)
        = sundayEnd (daysFromCivil 2017 1 4) := by decide
    simp only [forecast]
    rw [h2]

/-- C2 witness: the two January dates applied to a concrete `predict`. -/
theorem forecast_normalizes_to_sunday_witness :
    forecast (fun a b => ((a + b : Int) : ℚ)) 2017 1 3
      = forecast (fun a b => ((a + b : Int) : ℚ)) 2017 1 4 :=
  (forecast_normalizes_to_sunday (fun a b => ((a + b : Int) : ℚ))
    2017 1 3 2017 1 4 (by decide)).2.2

/-- C3 counterexample: '07-20-2017' and '07-16-2017' do NOT resolve to the
same week-ending Sunday (2017-07-16 is itself a Sunday, day 17363, while
2017-07-20 falls in the week ending 2017-07-23, day 17370), so the claim's
conjunction fails; its prediction-equality part also fails for models that
distinguish the two Sundays. -/
theorem forecast_july_claim_false :
    ¬(sundayEnd (daysFromCivil 2017 7 20) = sundayEnd (daysFromCivil 2017 7 16)
      ∧ ∀ predict : Int → Int → ℚ,
          forecast predict 2017 7 20 = forecast predict 2017 7 16) := by
  rintro ⟨h1, _⟩
  exact absurd h1 (by decide)

/-- C3 amended: `forecast('07-20-2017')` returns the same value as
`forecast('07-23-2017')`; both dates resolve to the week-ending Sunday
2017-07-23 (day 17370) and yield an identical prediction. -/
theorem forecast_july20_july23_equal (predict : Int → Int → ℚ) :
    sundayEnd (daysFromCivil 2017 7 20) = sundayEnd (daysFromCivil 2017 7 23)
    ∧ forecast predict 2017 7 20 = forecast predict 2017 7 23 := by
  have h : sundayEnd (daysFromCivil 2017 7 20)
      = sundayEnd (daysFromCivil 2017 7 23) := by decide
  refine ⟨h, ?_⟩
  simp only [forecast]
  rw [h]

/-- C3 amended witness: the two July dates applied to a concrete
`predict`. -/
theorem forecast_july20_july23_equal_witness :
    forecast (fun a b => ((a + b : Int) : ℚ)) 2017 7 20
      = forecast (fun a b => ((a + b : Int) : ℚ)) 2017 7 23 :=
  (forecast_july20_july23_equal (fun a b => ((a + b : Int) : ℚ))).2

/-- C4: filtering the full weekly series with the parameter vector fit on
the training prefix reproduces, on that prefix, exactly the in-sample
one-step-ahead fitted values of the original training fit; this holds for
every estimation routine `mle`, in particular the maximum-likelihood fit
with order (2, 1, 2). -/
theorem transplant_reproduces_training_fit (mle : List ℚ → ArimaParams)
    (w : List ℚ) (s : Int) (k : Nat) :
    (fittedValues (testing_model mle w s k)).take (train w k).length
      = fittedValues (trained_model mle w s k) := by
  simp only [fittedValues, testing_model, trained_model, train, oneStepPreds]
  have key := runFilter_append (mle (w.take k)) (w.take k) (w.drop k) initState
  rw [List.take_append_drop] at key
  exact key

/-- C4 witness: the transplant identity on a concrete three-point series
with a two-point training prefix. -/
theorem transplant_reproduces_training_fit_witness :
    (fittedValues (testing_model (fun _ => ⟨1, 0, 0, 0⟩) [1, 2, 3] 0 2)).take
        (train [1, 2, 3] 2).length
      = fittedValues (trained_model (fun _ => ⟨1, 0, 0, 0⟩) [1, 2, 3] 0 2) :=
  transplant_reproduces_training_fit (fun _ => ⟨1, 0, 0, 0⟩) [1, 2, 3] 0 2

/-- C5: serializing a fitted model to the model file and deserializing it
back yields exactly the original model, so its prediction at every query
date equals the original in-memory model's prediction there. -/
theorem save_load_roundtrip_preserves_predictions (m : FittedModel) (t : Int) :
    loadModel (saveModel m) = some m
    ∧ (loadModel (saveModel m)).map (fun m2 => predictAt m2 t)
        = some (predictAt m t) := by
  refine ⟨loadModel_saveModel m, ?_⟩
  rw [loadModel_saveModel m]
  rfl

/-- C5 witness: the round trip on a concrete fitted model. -/
theorem save_load_roundtrip_preserves_predictions_witness :
    loadModel (saveModel ⟨(2, 1, 2), ⟨1, 0, 0, 0⟩, [5, 6], 3⟩)
      = some ⟨(2, 1, 2), ⟨1, 0, 0, 0⟩, [5, 6], 3⟩ :=
  (save_load_roundtrip_preserves_predictions ⟨(2, 1, 2), ⟨1, 0, 0, 0⟩, [5, 6], 3⟩ 3).1

/-- C10: the model written to the model file - hence the model answering
every inference-stage forecast query - is the validation model: the full
weekly series carrying the parameter vector estimated on the training
prefix alone; whenever that estimate differs from the full-series
estimate, the saved model is not the re-estimated full-series model. -/
theorem saved_model_is_validation_model (mle : List ℚ → ArimaParams)
    (w : List ℚ) (s : Int) (k : Nat) (hne : mle (train w k) ≠ mle w) :
    loaded_model mle w s k = some (testing_model mle w s k)
    ∧ (testing_model mle w s k).params = mle (train w k)
    ∧ (testing_model mle w s k).series = w
    ∧ testing_model mle w s k ≠ model mle w s := by
  refine ⟨loadModel_saveModel _, rfl, rfl, ?_⟩
  intro hcontra
  apply hne
  have h2 := congrArg FittedModel.params hcontra
  simpa [testing_model, trained_model, model] using h2

/-- C10 witness: with an estimation routine that depends on the series
length, the loaded inference model is the transplanted validation model. -/
theorem saved_model_is_validation_model_witness :
    loaded_model (fun l => ⟨(l.length : ℚ), 0, 0, 0⟩) [0, 0] 0 1
      = some (testing_model (fun l => ⟨(l.length : ℚ), 0, 0, 0⟩) [0, 0] 0 1) :=
  (saved_model_is_validation_model (fun l => ⟨(l.length : ℚ), 0, 0, 0⟩) [0, 0] 0 1
    (by norm_num [train, ArimaParams.mk.injEq])).1

end BikeForecast
